import Mathlib

/-!
Verification of the storage-manager scan engine (backend/scanner.py and
backend/app.py) against its natural-language specification.

The Python code is shallowly embedded: database tables become lists of
records, SQLAlchemy queries become list filters/folds, and the scanning
thread's happy path becomes explicit state passing.  String operations
mirror Python semantics (case-insensitive substring tests, `str.replace`,
`str.split`, `str.strip`) and are implemented on `List Char` so that all
definitions are executable and kernel-reducible.
-/

namespace StorageManager

/-! ## Python-style string helpers -/

/-- ASCII lowercase of one character, as Python `str.lower` does for ASCII. -/
def lowerChar (c : Char) : Char :=
  if 'A' ≤ c ∧ c ≤ 'Z' then Char.ofNat (c.toNat + 32) else c

/-- Python `s.lower()` (ASCII range, which is all the source ever compares). -/
def strLower (s : String) : String :=
  ⟨s.data.map lowerChar⟩

/-- Contiguous-subsequence test on character lists. -/
def infixOfChars (needle : List Char) : List Char → Bool
  | [] => needle.isEmpty
  | c :: cs => needle.isPrefixOf (c :: cs) || infixOfChars needle cs

/-- Python `needle in hay` substring test. -/
def strContains (hay needle : String) : Bool :=
  infixOfChars needle.data hay.data

/-- Python `s.startswith (p)`. -/
def strStartsWith (s p : String) : Bool :=
  p.data.isPrefixOf s.data

/-- Replace every occurrence of `pat` (left to right, non-overlapping) by
`rep`, as Python `str.replace`. -/
def replaceChars (pat rep : List Char) : List Char → List Char
  | [] => []
  | c :: cs =>
    if _hpre : pat ≠ [] ∧ pat.isPrefixOf (c :: cs) then
      rep ++ replaceChars pat rep ((c :: cs).drop pat.length)
    else
      c :: replaceChars pat rep cs
termination_by l => l.length
decreasing_by
  · simp only [List.length_drop]
    have hlen : 1 ≤ pat.length := by
      cases pat with
      | nil => exact absurd rfl _hpre.1
      | cons a l => simp
    simp only [List.length_cons]
    omega
  · simp

/-- Python `s.replace (pat, rep)`. -/
def strReplace (s pat rep : String) : String :=
  ⟨replaceChars pat.data rep.data s.data⟩

/-- Python `s.strip ('/')`: drop leading and trailing slashes. -/
def stripSlashes (s : String) : String :=
  ⟨((s.data.dropWhile (· = '/')).reverse.dropWhile (· = '/')).reverse⟩

/-- Python `s.split ('/')` as a `foldr`; only its length is ever used
(for the `depth` field). -/
def splitSlash (s : String) : List (List Char) :=
  s.data.foldr
    (fun c acc =>
      if c = '/' then [] :: acc
      else
        match acc with
        | a :: rest => (c :: a) :: rest
        | [] => [[c]])
    [[]]

/-- Python `os.path.basename`: the part after the last `'/'`. -/
def basename (s : String) : String :=
  ⟨s.data.foldl (fun acc c => if c = '/' then [] else acc ++ [c]) []⟩

/-! ## Data model

`FileRecord` embeds the `files` table rows the Walker writes
(models.py `FileRecord`); timestamp/permission columns are not read by any
of the verified passes and are omitted. -/

structure FileRecord where
  id : Nat
  path : String
  name : String
  size : Nat
  is_directory : Bool
  parent_path : String
  scan_id : Nat
deriving DecidableEq, Repr

/-- A `scans` table row (app.py `ScanRecord`).  `end_time_set` stands for
"`end_time` was assigned `datetime.utcnow()`" (wall-clock values are not
modelled). -/
structure ScanSession where
  id : Nat
  status : String
  error_message : Option String
  total_files : Nat
  total_directories : Nat
  total_size : Nat
  end_time_set : Bool
deriving DecidableEq, Repr

/-! ## Scan lifecycle controller (scanner.py `FileScanner.start_scan`,
`stop_current_scan`; app.py `/api/scan/stop` route; scanner.py
finalization block of `_scan_filesystem_with_context`) -/

/-- In-memory scanner plus the durable `scans` table, on the happy path
(database commits succeed). -/
structure ScannerState where
  scanning : Bool
  sessions : List ScanSession
  nextId : Nat
deriving DecidableEq, Repr

/-- scanner.py `start_scan` (lines 112-201, happy path): refuse if already
scanning; otherwise mark every `running` session `failed` with
`'Superseded by new scan'` and an end time, then insert a fresh `running`
session and return its id. -/
def startScan (st : ScannerState) : Option Nat × ScannerState :=
  if st.scanning then (none, st)
  else
    let reconciled := st.sessions.map fun s =>
      if s.status == "running" then
        { s with status := "failed"
                 error_message := some "Superseded by new scan"
                 end_time_set := true }
      else s
    let fresh : ScanSession :=
      { id := st.nextId, status := "running", error_message := none
        total_files := 0, total_directories := 0, total_size := 0
        end_time_set := false }
    (some st.nextId,
     { scanning := true, sessions := reconciled ++ [fresh]
       nextId := st.nextId + 1 })

/-- app.py `stop_scan` route (lines 1477-1512), database part: every
`running` session becomes `stopped` with message `'Scan stopped by user'`. -/
def stopScanRoute (sessions : List ScanSession) : List ScanSession :=
  sessions.map fun s =>
    if s.status == "running" then
      { s with status := "stopped"
               error_message := some "Scan stopped by user"
               end_time_set := true }
    else s

/-- scanner.py finalization block (lines 776-799): after the walk loop ends
(normally, by stop flag, or by timeout) the session row is looked up by id
and unconditionally marked `completed` with the walker's totals. -/
def finalizeCompleted (scanId tf td ts : Nat)
    (sessions : List ScanSession) : List ScanSession :=
  sessions.map fun s =>
    if s.id == scanId then
      { s with total_files := tf, total_directories := td, total_size := ts
               status := "completed", end_time_set := true }
    else s

/-! ## Scan duration budget (scanner.py lines 52-54 and 488-490) -/

/-- `FileScanner.__init__`: `self.max_duration = max_duration * 3600`
("Convert to seconds"); `max_duration` is given in hours. -/
def initMaxDuration (hours : Nat) : Nat := hours * 3600

/-- `_scan_filesystem_with_context` line 490:
`max_scan_time = self.max_duration * 3600` ("Convert hours to seconds"),
applied to the field that was already converted. -/
def maxScanTime (maxDurationField : Nat) : Nat := maxDurationField * 3600

/-- The timeout threshold, in seconds, that the walk loop actually compares
elapsed time against for a scanner configured with `hours` hours. -/
def effectiveTimeoutSeconds (hours : Nat) : Nat :=
  maxScanTime (initMaxDuration hours)

/-- Modelled from the spec: "if total elapsed time exceeds a configured
maximum, stop traversal early", where the configured maximum is the number
of hours converted once to seconds. -/
def specTimeoutSeconds (hours : Nat) : Nat := hours * 3600

/-! ## Entry persistence during traversal (scanner.py lines 629-712)

One step of the per-entry loop: on success the new record is added to the
session (pending, uncommitted) and the running counter incremented, with a
`db.session.commit()` once the counter hits a multiple of the batch size;
on a per-entry failure (`os.stat` raising, a bad record) the handler does
`db.session.rollback()` — which discards every record added to the session
since the last commit — and continues with the next entry. -/

/-- One entry of the traversal: either a record that processes cleanly or
one whose stat/record step raises. -/
inductive ScanItem where
  | ok (r : FileRecord)
  | err
deriving DecidableEq, Repr

/-- The SQLAlchemy session seen by the per-entry loop: records added but
not yet committed, records durably committed, and the running counter. -/
structure WriterState where
  pending : List FileRecord
  committed : List FileRecord
  count : Nat
deriving DecidableEq, Repr

/-- One iteration of the per-file loop (scanner.py lines 666-712; the
per-directory loop at 630-663 is identical with batch size 100). -/
def processItem (batch : Nat) (st : WriterState) : ScanItem → WriterState
  | .ok r =>
    let count := st.count + 1
    let pending := st.pending ++ [r]
    if count % batch == 0 then
      { pending := [], committed := st.committed ++ pending, count }
    else
      { pending, committed := st.committed, count }
  | .err => { st with pending := [] }

/-- The whole per-entry loop followed by the final commit in the
finalization block (scanner.py line 783/799 flushes the session). -/
def runEntryLoop (batch : Nat) (items : List ScanItem) : WriterState :=
  let st := items.foldl (processItem batch) ⟨[], [], 0⟩
  { pending := [], committed := st.committed ++ st.pending, count := st.count }

/-! ## Folder aggregation pass (app.py `calculate_folder_totals_during_scan`,
lines 789-913)

This is the pass whose output rows are the scan's final `folder_info`
table: it runs during post-scan processing, after (and clearing the rows
of) scanner.py `_create_folder_info_records`. -/

/-- One `folder_info` row, with exactly the columns the pass assigns
(`id` is auto-assigned and `updated_at` is a column default; neither is
computed by the pass). -/
structure FolderInfoRow where
  path : String
  name : String
  parent_path : String
  total_size : Nat
  file_count : Nat
  directory_count : Nat
  direct_file_count : Nat
  direct_directory_count : Nat
  depth : Nat
  scan_id : Nat
deriving DecidableEq, Repr

/-- One row of the `directory_data` query result (app.py lines 809-823). -/
structure DirectoryDataRow where
  path : String
  name : String
  parent_path : String
  direct_file_count : Nat
  direct_directory_count : Nat
  direct_size : Nat
deriving DecidableEq, Repr

/-- Stable insertion of a row into a list sorted by `length(path)`
descending. -/
def insertByPathLenDesc (a : DirectoryDataRow) :
    List DirectoryDataRow → List DirectoryDataRow
  | [] => [a]
  | b :: bs =>
    if b.path.length ≤ a.path.length then a :: b :: bs
    else b :: insertByPathLenDesc a bs

/-- Sort by `length(path)` descending (the query's `ORDER BY`). -/
def sortByPathLenDesc (l : List DirectoryDataRow) :
    List DirectoryDataRow :=
  l.foldr insertByPathLenDesc []

/-- The `directory_data` query: rows of the scan with
`is_directory == True`, grouped by `(path, name, parent_path)`, each group
aggregated with
`count(case(is_directory == False, 1))` (direct files),
`count(case(is_directory == True, 1))` (direct directories) and
`sum(case(is_directory == False, size, else 0))` (direct size),
ordered by `length(path)` descending.  Note the filter admits only
directory rows, so each group is the directory's own row. -/
def directoryDataQuery (scan : Nat) (recs : List FileRecord) :
    List DirectoryDataRow :=
  let dirRows := recs.filter fun r => r.scan_id == scan && r.is_directory
  let keys := (dirRows.map fun r => (r.path, r.name, r.parent_path)).dedup
  let grouped := keys.map fun k =>
    let g := dirRows.filter fun r => (r.path, r.name, r.parent_path) == k
    { path := k.1, name := k.2.1, parent_path := k.2.2
      direct_file_count := g.countP fun r => !r.is_directory
      direct_directory_count := g.countP fun r => r.is_directory
      direct_size := (g.map fun r =>
        if !r.is_directory then r.size else 0).sum
      : DirectoryDataRow }
  sortByPathLenDesc grouped

/-- Running totals kept in the `folder_info` Python dict. -/
structure FolderTotals where
  total_size : Nat
  file_count : Nat
  directory_count : Nat
deriving DecidableEq, Repr

/-- Python `relative_path = path.replace(data_path, '').strip('/')` and
`depth = len(relative_path.split('/')) if relative_path else 0`
(app.py lines 843-844). -/
def depthOf (dataPath path : String) : Nat :=
  let relativePath := stripSlashes (strReplace path dataPath "")
  if relativePath = "" then 0 else (splitSlash relativePath).length

/-- The fold state: the `folder_info` dict (as an insertion-ordered
association list) and the rows added to the session so far. -/
structure AggState where
  folderInfo : List (String × FolderTotals)
  rows : List FolderInfoRow
deriving Repr

/-- One iteration of the aggregation loop over `directory_data`. -/
def aggStep (dataPath : String) (scan : Nat) (st : AggState)
    (d : DirectoryDataRow) : AggState :=
  let depth := depthOf dataPath d.path
  let subs := st.folderInfo.filter fun pr =>
    strStartsWith pr.1 (d.path ++ "/") && pr.1 != d.path
  let totalSize := d.direct_size + (subs.map fun pr => pr.2.total_size).sum
  let totalFiles :=
    d.direct_file_count + (subs.map fun pr => pr.2.file_count).sum
  let totalDirs :=
    d.direct_directory_count + (subs.map fun pr => pr.2.directory_count).sum
  { folderInfo := st.folderInfo ++
      [(d.path, ⟨totalSize, totalFiles, totalDirs⟩)]
    rows := st.rows ++
      [{ path := d.path, name := d.name, parent_path := d.parent_path
         total_size := totalSize, file_count := totalFiles
         directory_count := totalDirs
         direct_file_count := d.direct_file_count
         direct_directory_count := d.direct_directory_count
         depth := depth, scan_id := scan }] }

/-- The rows `calculate_folder_totals_during_scan` writes for `scan` from
the entry set `recs`. -/
def calcFolderTotals (dataPath : String) (scan : Nat)
    (recs : List FileRecord) : List FolderInfoRow :=
  ((directoryDataQuery scan recs).foldl (aggStep dataPath scan) ⟨[], []⟩).rows

/-- The whole pass as a transformation of the `folder_info` table: clear
the scan's prior rows (app.py line 801), then insert the recomputed ones. -/
def applyFolderAggregation (dataPath : String) (scan : Nat)
    (recs : List FileRecord) (table : List FolderInfoRow) :
    List FolderInfoRow :=
  (table.filter fun f => f.scan_id != scan) ++ calcFolderTotals dataPath scan recs

/-- Modelled from the spec: the sum of the sizes of all file entries of the
scan strictly under directory path `dpath` (recursively), for comparison
with the pass's `total_size`. -/
def specSumFileSizesUnder (recs : List FileRecord) (scan : Nat)
    (dpath : String) : Nat :=
  ((recs.filter fun r =>
      r.scan_id == scan && !r.is_directory &&
      strStartsWith r.path (dpath ++ "/")).map fun r => r.size).sum

/-- Modelled from the spec: the number of file entries of the scan strictly
under `dpath` (recursively). -/
def specFileCountUnder (recs : List FileRecord) (scan : Nat)
    (dpath : String) : Nat :=
  (recs.filter fun r =>
    r.scan_id == scan && !r.is_directory &&
    strStartsWith r.path (dpath ++ "/")).length

/-- Modelled from the spec: the number of directory entries of the scan
strictly under `dpath`. -/
def specDirCountUnder (recs : List FileRecord) (scan : Nat)
    (dpath : String) : Nat :=
  (recs.filter fun r =>
    r.scan_id == scan && r.is_directory &&
    strStartsWith r.path (dpath ++ "/")).length

/-! ## Directory walker with exclusion pruning
(scanner.py `_scan_filesystem_with_context`, lines 432-758) -/

mutual
/-- A filesystem subtree fed to the walker.  `FSForest` is an inlined list
of sibling subtrees (a mutual inductive keeps every walker function
structurally recursive, hence kernel-computable). -/
inductive FSTree where
  | file (name : String) (size : Nat)
  | dir (name : String) (children : FSForest)
inductive FSForest where
  | nil
  | cons (head : FSTree) (tail : FSForest)
end

def FSTree.nodeName : FSTree → String
  | .file n _ => n
  | .dir n _ => n

def FSTree.isDirNode : FSTree → Bool
  | .file _ _ => false
  | .dir _ _ => true

def FSForest.toList : FSForest → List FSTree
  | .nil => []
  | .cons t ts => t :: ts.toList

/-- The hardcoded `excluded_shares` list (scanner.py lines 461-466). -/
def excludedShares : List String :=
  ["cache", "temp", "tmp", "logs", "log", "backup", "backups",
   "xteve", "plex", "emby", "jellyfin", "sonarr", "radarr",
   "lidarr", "readarr", "sabnzbd", "nzbget", "transmission",
   "deluge", "qbit", "qbittorrent", "docker", "containers"]

/-- scanner.py `is_excluded_share` (lines 450-473): case-insensitive check
of the `appdata` token (when the `skip_appdata` setting is on) and of every
hardcoded excluded-share token, against the share NAME. -/
def isExcludedShare (shareName : String) (skipAppdata : Bool) : Bool :=
  let shareLower := strLower shareName
  if skipAppdata &&
      (strContains shareLower "appdata" || shareLower == "appdata") then
    true
  else
    excludedShares.any fun ex => strContains shareLower ex

def mkDirRec (path name parent : String) (scan : Nat) : FileRecord :=
  { id := 0, path := path, name := name, size := 0, is_directory := true
    parent_path := parent, scan_id := scan }

def mkFileRec (path name : String) (size : Nat) (parent : String)
    (scan : Nat) : FileRecord :=
  { id := 0, path := path, name := name, size := size, is_directory := false
    parent_path := parent, scan_id := scan }

/-- The `dirs[:] = [d for d in dirs if 'appdata' not in d.lower()]`
filtering (scanner.py line 578), applied only when `skip_appdata` is on;
files stay untouched either way. -/
def keptSubdirs (skipAppdata : Bool) (children : List FSTree) :
    List FSTree :=
  if skipAppdata then
    (children.filter FSTree.isDirNode).filter fun d =>
      !strContains (strLower d.nodeName) "appdata"
  else children.filter FSTree.isDirNode

/-- Whether one child directory survives the in-walk filter: it must be a
directory and, with `skip_appdata` on, its lowercased name must not contain
`"appdata"`. -/
def keepChild (skipAppdata : Bool) (t : FSTree) : Bool :=
  t.isDirNode && (!skipAppdata || !strContains (strLower t.nodeName) "appdata")

/-- The `(name, size)` pairs of the file children (the `files` component of
the `os.walk` triple). -/
def childFiles (children : List FSTree) : List (String × Nat) :=
  children.filterMap fun t =>
    match t with
    | .file n s => some (n, s)
    | .dir _ _ => none

mutual
/-- `os.walk (root)` on subtree `t` rooted at path `root`, as the walker
consumes it (scanner.py lines 568-712): at each directory, the kept
subdirectories get a directory record, each file gets a file record, and
the walk then descends only into the kept subdirectories (in order). -/
def walkAt (skipAppdata : Bool) (scan : Nat) (root : String) :
    FSTree → List FileRecord
  | .file _ _ => []
  | .dir _ children =>
    ((keptSubdirs skipAppdata children.toList).map fun d =>
      mkDirRec (root ++ "/" ++ d.nodeName) d.nodeName root scan)
    ++ ((childFiles children.toList).map fun f =>
      mkFileRec (root ++ "/" ++ f.1) f.1 f.2 root scan)
    ++ walkKeptForest skipAppdata scan root children
/-- Descend, in sibling order, into exactly the children kept by the
filter. -/
def walkKeptForest (skipAppdata : Bool) (scan : Nat) (root : String) :
    FSForest → List FileRecord
  | .nil => []
  | .cons t ts =>
    (if keepChild skipAppdata t then
      walkAt skipAppdata scan (root ++ "/" ++ t.nodeName) t
    else [])
    ++ walkKeptForest skipAppdata scan root ts
end

/-- The per-share processing inside the top-level loop (scanner.py lines
522-758): an excluded or non-directory top-level item contributes nothing;
otherwise a record for the share itself (parent = the data path) followed
by the walk of the share. -/
def scanShares (skipAppdata : Bool) (scan : Nat) (dataPath : String) :
    FSForest → List FileRecord
  | .nil => []
  | .cons t ts =>
    (if isExcludedShare t.nodeName skipAppdata then []
     else if !t.isDirNode then []
     else
       mkDirRec (dataPath ++ "/" ++ t.nodeName) t.nodeName dataPath scan
       :: walkAt skipAppdata scan (dataPath ++ "/" ++ t.nodeName) t)
    ++ scanShares skipAppdata scan dataPath ts

/-- The whole traversal (scanner.py lines 476-758): the data path itself
failing `is_excluded_share` aborts the scan (lines 476-478), otherwise the
top-level loop runs. -/
def scanForest (skipAppdata : Bool) (scan : Nat) (dataPath : String)
    (forest : FSForest) : Except String (List FileRecord) :=
  if isExcludedShare (basename dataPath) skipAppdata then
    .error ("Cannot scan excluded path: " ++ dataPath)
  else
    .ok (scanShares skipAppdata scan dataPath forest)

mutual
/-- Removing, at every level below the top, the subtrees the walker's
in-walk filter prunes: directories whose lowercased name contains
`"appdata"`.  File children are never pruned. -/
def pruneAppdata : FSTree → FSTree
  | .file n s => .file n s
  | .dir n children => .dir n (pruneForest children)
def pruneForest : FSForest → FSForest
  | .nil => .nil
  | .cons t ts =>
    if !t.isDirNode || !strContains (strLower t.nodeName) "appdata" then
      .cons (pruneAppdata t) (pruneForest ts)
    else pruneForest ts
end

/-- Keep only the top-level items satisfying `p`. -/
def filterForest (p : FSTree → Bool) : FSForest → FSForest
  | .nil => .nil
  | .cons t ts =>
    if p t then .cons t (filterForest p ts) else filterForest p ts

/-! ## Duplicate detector (app.py `detect_duplicates`, lines 466-532) -/

/-- A `duplicate_files` row: the member's file record (standing for its
`file_id` foreign key), the group fingerprint, and the primary flag. -/
structure DupMember where
  file : FileRecord
  hash_value : String
  is_primary : Bool
deriving DecidableEq, Repr

/-- A `duplicate_groups` row together with its member rows.  `name` is the
name component of the fingerprint the group was built from. -/
structure DupGroupRec where
  hash_value : String
  size : Nat
  name : String
  file_count : Nat
  members : List DupMember
deriving DecidableEq, Repr

/-- `content_hash = f"size_{size}_name_{name}"` (app.py line 508). -/
def mkHash (size : Nat) (name : String) : String :=
  "size_" ++ toString size ++ "_name_" ++ name

/-- The first grouped query (app.py lines 476-485): sizes held by more than
one file record of the scan with `is_directory == False` and `size > 0`. -/
def eligibleFiles (recs : List FileRecord) (scan : Nat) : List FileRecord :=
  recs.filter fun r => r.scan_id == scan && !r.is_directory && 0 < r.size

def dupSizes (recs : List FileRecord) (scan : Nat) : List Nat :=
  ((eligibleFiles recs scan).map fun r => r.size).dedup.filter fun s =>
    1 < ((eligibleFiles recs scan).filter fun r => r.size == s).length

/-- The inner per-size query (app.py lines 490-494): the scan's file
records of that size (no separate `size > 0` filter here). -/
def filesWithSize (recs : List FileRecord) (scan s : Nat) :
    List FileRecord :=
  recs.filter fun r => r.scan_id == scan && r.size == s && !r.is_directory

/-- The keys of the `files_by_name` dict, in first-encounter order. -/
def groupNames (files : List FileRecord) : List String :=
  (files.map fun r => r.name).dedup

/-- `for i, file in enumerate(file_list)` with `is_primary=(i == 0)`
(app.py lines 520-527): first member primary, rest not. -/
def mkMembers (h : String) : List FileRecord → List DupMember
  | [] => []
  | f :: rest => ⟨f, h, true⟩ :: rest.map fun r => ⟨r, h, false⟩

/-- The groups created for one size (app.py lines 496-529): the name
buckets of `files_by_name` with more than one member. -/
def groupsForSize (recs : List FileRecord) (scan s : Nat) :
    List DupGroupRec :=
  let files := filesWithSize recs scan s
  (groupNames files).filterMap fun n =>
    let l := files.filter fun r => r.name == n
    if 1 < l.length then
      some { hash_value := mkHash s n, size := s, name := n
             file_count := l.length, members := mkMembers (mkHash s n) l }
    else none

/-- All duplicate groups `detect_duplicates (scan)` creates from the
`files` table `recs`. -/
def detectGroups (recs : List FileRecord) (scan : Nat) :
    List DupGroupRec :=
  (dupSizes recs scan).flatMap (groupsForSize recs scan)

/-- The file records of the scan sharing the `(size, name)` pair:
`filesWithSize` refined by exact name match, exactly the bucket
`files_by_name[name]`. -/
def pairFiles (recs : List FileRecord) (scan s : Nat) (n : String) :
    List FileRecord :=
  (filesWithSize recs scan s).filter fun r => r.name == n

/-- The group record built for fingerprint `(s, n)` — the value
`groupsForSize` wraps in `some` when the bucket has more than one
member. -/
def mkGroup (recs : List FileRecord) (scan s : Nat) (n : String) :
    DupGroupRec :=
  { hash_value := mkHash s n, size := s, name := n
    file_count := (pairFiles recs scan s n).length
    members := mkMembers (mkHash s n) (pairFiles recs scan s n) }

/-- The duplicate-side store `detect_duplicates` mutates, together with the
`files` table it reads. -/
structure DupStore where
  files : List FileRecord
  groups : List DupGroupRec
deriving DecidableEq, Repr

/-- app.py lines 471-531 as a store transformation: `DuplicateFile` and
`DuplicateGroup` are cleared WITHOUT any scan filter (lines 472-473), then
the groups of `scan` are inserted. -/
def detectDuplicates (scan : Nat) (st : DupStore) : DupStore :=
  { files := st.files, groups := detectGroups st.files scan }

/-! ## Concrete sample inputs used as failing inputs / witnesses -/

/-- A one-share, one-file entry set: the directory `/data/share` holds a
single 10-byte file. -/
def c1SampleEntries : List FileRecord :=
  [⟨1, "/data/share", "share", 0, true, "/data", 1⟩,
   ⟨2, "/data/share/a.bin", "a.bin", 10, false, "/data/share", 1⟩]

/-- A share `movies` containing the subdirectory `cache` (with a file
inside) and a file whose name contains `appdata`. -/
def c2SampleForest : FSForest :=
  .cons (.dir "movies"
    (.cons (.dir "cache" (.cons (.file "y.bin" 5) .nil))
    (.cons (.file "xappdatay.bin" 7) .nil))) .nil

/-- Two same-name same-size files in different directories, one same-size
file under a different name, one zero-size file and one directory. -/
def c6SampleEntries : List FileRecord :=
  [⟨1, "/d/a/movie.mkv", "movie.mkv", 700000000, false, "/d/a", 1⟩,
   ⟨2, "/d/b/movie.mkv", "movie.mkv", 700000000, false, "/d/b", 1⟩,
   ⟨3, "/d/c/other.mkv", "other.mkv", 700000000, false, "/d/c", 1⟩,
   ⟨4, "/d/z", "z", 0, false, "/d", 1⟩,
   ⟨5, "/d/dir", "dir", 700000000, true, "/d", 1⟩]

/-! # Theorems -/

/-! ## Scan lifecycle (C3, C4, C5) -/

/-- C3. Before `start_scan` creates a new session, every session still
marked running — whatever its origin — is forcibly marked failed with an
error message; the started state then has exactly one running session. -/
theorem c3_start_reconciles_running (st : ScannerState)
    (h : st.scanning = false) :
    (startScan st).1 = some st.nextId
    ∧ ((startScan st).2.sessions.countP fun s => s.status == "running") = 1
    ∧ ∀ s ∈ st.sessions, s.status = "running" →
        ∃ s' ∈ (startScan st).2.sessions, s'.id = s.id ∧
          s'.status = "failed" ∧
          s'.error_message = some "Superseded by new scan" := by
  refine ⟨by simp [startScan, h], ?_, ?_⟩
  · simp only [startScan, h, Bool.false_eq_true, if_false]
    rw [List.countP_append, List.countP_map]
    have hz : (st.sessions.countP
        ((fun s => s.status == "running") ∘ fun s =>
          if s.status == "running" then
            { s with status := "failed"
                     error_message := some "Superseded by new scan"
                     end_time_set := true }
          else s)) = 0 := by
      rw [List.countP_eq_zero]
      intro s _
      by_cases hr : s.status = "running"
      · simp only [Function.comp_apply, hr]
        rw [if_pos (by simp)]
        simp
      · simp only [Function.comp_apply]
        rw [if_neg (by simp [hr])]
        simp [hr]
    rw [hz]
    rfl
  · intro s hs hrun
    refine ⟨{ s with status := "failed"
                     error_message := some "Superseded by new scan"
                     end_time_set := true }, ?_, rfl, rfl, rfl⟩
    simp only [startScan, h, Bool.false_eq_true, if_false]
    refine List.mem_append_left _ ?_
    have : (if s.status == "running" then
        { s with status := "failed"
                 error_message := some "Superseded by new scan"
                 end_time_set := true }
      else s) = { s with status := "failed"
                         error_message := some "Superseded by new scan"
                         end_time_set := true } := by
      simp [hrun]
    exact this ▸ List.mem_map_of_mem _ hs

/-- C3 witness: a state with a leftover running session and an idle
scanner. -/
theorem c3_start_reconciles_running_witness :
    (⟨false, [⟨1, "running", none, 0, 0, 0, false⟩], 2⟩ :
        ScannerState).scanning = false
    ∧ ((startScan ⟨false, [⟨1, "running", none, 0, 0, 0, false⟩], 2⟩).1
        = some 2
      ∧ (((startScan
            ⟨false, [⟨1, "running", none, 0, 0, 0, false⟩], 2⟩).2.sessions.countP
          fun s => s.status == "running")) = 1
      ∧ ∀ s ∈ ([⟨1, "running", none, 0, 0, 0, false⟩] : List ScanSession),
          s.status = "running" →
          ∃ s' ∈ (startScan
              ⟨false, [⟨1, "running", none, 0, 0, 0, false⟩], 2⟩).2.sessions,
            s'.id = s.id ∧ s'.status = "failed" ∧
            s'.error_message = some "Superseded by new scan") :=
  ⟨rfl, c3_start_reconciles_running
    ⟨false, [⟨1, "running", none, 0, 0, 0, false⟩], 2⟩ rfl⟩

/-- C4. Calling `start_scan` while a scan is already in flight returns no
session id and leaves the whole state — including every session row —
unchanged. -/
theorem c4_already_running_rejected (st : ScannerState)
    (h : st.scanning = true) :
    (startScan st).1 = none ∧ (startScan st).2 = st := by
  constructor <;> simp [startScan, h]

/-- C4 witness. -/
theorem c4_already_running_rejected_witness :
    (⟨true, [⟨1, "running", none, 0, 0, 0, false⟩], 2⟩ :
        ScannerState).scanning = true
    ∧ ((startScan ⟨true, [⟨1, "running", none, 0, 0, 0, false⟩], 2⟩).1 = none
      ∧ (startScan ⟨true, [⟨1, "running", none, 0, 0, 0, false⟩], 2⟩).2
        = ⟨true, [⟨1, "running", none, 0, 0, 0, false⟩], 2⟩) :=
  ⟨rfl, c4_already_running_rejected
    ⟨true, [⟨1, "running", none, 0, 0, 0, false⟩], 2⟩ rfl⟩

/-- C5 (code bug evidence).  A running session on which stop is requested
— the stop route marks it `stopped` — ends up `completed`, not `stopped`:
the walker's finalization block overwrites the terminal status when it
winds down. -/
theorem c5_stop_overwritten_by_completed :
    (stopScanRoute [⟨1, "running", none, 0, 0, 0, false⟩]).map
        (fun s => s.status) = ["stopped"]
    ∧ (finalizeCompleted 1 10 20 30
        (stopScanRoute [⟨1, "running", none, 0, 0, 0, false⟩])).map
        (fun s => s.status) = ["completed"]
    ∧ ("completed" : String) ≠ "stopped" := by
  refine ⟨rfl, rfl, by decide⟩

/-! ## Entry persistence under per-entry failures (C8) -/

theorem processItem_mem_src (batch : Nat) (st : WriterState)
    (it : ScanItem) (r : FileRecord)
    (h : r ∈ (processItem batch st it).pending ∨
      r ∈ (processItem batch st it).committed) :
    r ∈ st.pending ∨ r ∈ st.committed ∨ it = .ok r := by
  cases it with
  | err =>
    simp only [processItem] at h
    rcases h with h | h
    · simp at h
    · exact Or.inr (Or.inl h)
  | ok x =>
    simp only [processItem] at h
    by_cases hc : (st.count + 1) % batch == 0
    · rw [if_pos hc] at h
      rcases h with h | h
      · simp at h
      · simp only [List.mem_append] at h
        rcases h with h | h | h
        · exact Or.inr (Or.inl h)
        · exact Or.inl h
        · simp at h
          exact Or.inr (Or.inr (by rw [h]))
    · rw [if_neg hc] at h
      rcases h with h | h
      · simp only [List.mem_append] at h
        rcases h with h | h
        · exact Or.inl h
        · simp at h
          exact Or.inr (Or.inr (by rw [h]))
      · exact Or.inr (Or.inl h)

theorem foldl_mem_src (batch : Nat) (items : List ScanItem) :
    ∀ (st : WriterState) (r : FileRecord),
      (r ∈ (items.foldl (processItem batch) st).pending ∨
        r ∈ (items.foldl (processItem batch) st).committed) →
      r ∈ st.pending ∨ r ∈ st.committed ∨ .ok r ∈ items := by
  induction items with
  | nil => intro st r h; simpa using h
  | cons it rest ih =>
    intro st r h
    rw [List.foldl_cons] at h
    rcases ih (processItem batch st it) r h with h' | h' | h'
    · rcases processItem_mem_src batch st it r (Or.inl h') with h2 | h2 | h2
      · exact Or.inl h2
      · exact Or.inr (Or.inl h2)
      · exact Or.inr (Or.inr (by rw [h2]; exact List.mem_cons_self _ _))
    · rcases processItem_mem_src batch st it r (Or.inr h') with h2 | h2 | h2
      · exact Or.inl h2
      · exact Or.inr (Or.inl h2)
      · exact Or.inr (Or.inr (by rw [h2]; exact List.mem_cons_self _ _))
    · exact Or.inr (Or.inr (List.mem_cons_of_mem _ h'))

theorem processItem_keeps (batch : Nat) (st : WriterState) (it : ScanItem)
    (r : FileRecord) (hit : it ≠ .err)
    (h : r ∈ st.pending ∨ r ∈ st.committed) :
    r ∈ (processItem batch st it).pending ∨
      r ∈ (processItem batch st it).committed := by
  cases it with
  | err => exact absurd rfl hit
  | ok x =>
    simp only [processItem]
    by_cases hc : (st.count + 1) % batch == 0
    · rw [if_pos hc]
      rcases h with h | h
      · exact Or.inr (by simp [h])
      · exact Or.inr (by simp [h])
    · rw [if_neg hc]
      rcases h with h | h
      · exact Or.inl (by simp [h])
      · exact Or.inr h

theorem processItem_committed_mono (batch : Nat) (st : WriterState)
    (it : ScanItem) (r : FileRecord) (h : r ∈ st.committed) :
    r ∈ (processItem batch st it).committed := by
  cases it with
  | err => exact h
  | ok x =>
    simp only [processItem]
    by_cases hc : (st.count + 1) % batch == 0
    · rw [if_pos hc]
      simp [h]
    · rw [if_neg hc]
      exact h

theorem foldl_committed_mono (batch : Nat) (items : List ScanItem) :
    ∀ (st : WriterState) (r : FileRecord), r ∈ st.committed →
      r ∈ (items.foldl (processItem batch) st).committed := by
  induction items with
  | nil => intro st r h; simpa using h
  | cons it rest ih =>
    intro st r h
    rw [List.foldl_cons]
    exact ih (processItem batch st it) r
      (processItem_committed_mono batch st it r h)

theorem foldl_keeps (batch : Nat) (items : List ScanItem)
    (hnoerr : .err ∉ items) :
    ∀ (st : WriterState) (r : FileRecord),
      (r ∈ st.pending ∨ r ∈ st.committed) →
      r ∈ (items.foldl (processItem batch) st).pending ∨
        r ∈ (items.foldl (processItem batch) st).committed := by
  induction items with
  | nil => intro st r h; simpa using h
  | cons it rest ih =>
    intro st r h
    rw [List.foldl_cons]
    have hit : it ≠ .err := fun he => hnoerr (he ▸ List.mem_cons_self _ _)
    have hrest : ScanItem.err ∉ rest := fun he =>
      hnoerr (List.mem_cons_of_mem _ he)
    exact ih hrest (processItem batch st it) r
      (processItem_keeps batch st it r hit h)

/-- C8 (amended).  Over the whole per-entry loop: every persisted record
came from a successfully processed entry; every successfully processed
entry after the last failure is persisted; and every record already
committed at any point of the loop — i.e. every entry from an
already-committed batch — is still persisted at the end, whatever
failures follow.  (Entries pending in the batch when a failure hits are
rolled back, which is what the counterexample exhibits.) -/
theorem c8_amended_batch_rollback (batch : Nat) (items : List ScanItem) :
    (∀ r ∈ (runEntryLoop batch items).committed, ScanItem.ok r ∈ items)
    ∧ (∀ (pre post : List ScanItem) (r : FileRecord),
        items = pre ++ ScanItem.ok r :: post → ScanItem.err ∉ post →
        r ∈ (runEntryLoop batch items).committed)
    ∧ ∀ (pre post : List ScanItem) (r : FileRecord),
        items = pre ++ post →
        r ∈ (pre.foldl (processItem batch) ⟨[], [], 0⟩).committed →
        r ∈ (runEntryLoop batch items).committed := by
  refine ⟨?_, ?_, ?_⟩
  · intro r hr
    simp only [runEntryLoop, List.mem_append] at hr
    rcases foldl_mem_src batch items ⟨[], [], 0⟩ r
        (by rcases hr with h | h
            · exact Or.inr h
            · exact Or.inl h) with h | h | h
    · simp at h
    · simp at h
    · exact h
  · intro pre post r heq hnoerr
    subst heq
    simp only [runEntryLoop, List.foldl_append, List.foldl_cons,
      List.mem_append]
    set st1 := pre.foldl (processItem batch) ⟨[], [], 0⟩ with hst1
    have hstep : r ∈ (processItem batch st1 (.ok r)).pending ∨
        r ∈ (processItem batch st1 (.ok r)).committed := by
      simp only [processItem]
      by_cases hc : (st1.count + 1) % batch == 0
      · rw [if_pos hc]
        exact Or.inr (by simp)
      · rw [if_neg hc]
        exact Or.inl (by simp)
    rcases foldl_keeps batch post hnoerr _ r hstep with h | h
    · exact Or.inr h
    · exact Or.inl h
  · intro pre post r heq hcom
    subst heq
    simp only [runEntryLoop, List.foldl_append, List.mem_append]
    exact Or.inl (foldl_committed_mono batch post _ r hcom)

/-- C8 witness: with batch size 2, an ok–err–ok run places the
post-failure record in the committed set, and an ok–ok–err run keeps the
batch committed before the failure despite the failure that follows. -/
theorem c8_amended_batch_rollback_witness :
    ([ScanItem.ok ⟨1, "/d/x", "x", 1, false, "/d", 1⟩, ScanItem.err,
        ScanItem.ok ⟨2, "/d/y", "y", 1, false, "/d", 1⟩]
      = [ScanItem.ok ⟨1, "/d/x", "x", 1, false, "/d", 1⟩, ScanItem.err]
        ++ ScanItem.ok ⟨2, "/d/y", "y", 1, false, "/d", 1⟩ :: [])
    ∧ ScanItem.err ∉ ([] : List ScanItem)
    ∧ (⟨2, "/d/y", "y", 1, false, "/d", 1⟩ : FileRecord) ∈
        (runEntryLoop 2
          [ScanItem.ok ⟨1, "/d/x", "x", 1, false, "/d", 1⟩, ScanItem.err,
            ScanItem.ok ⟨2, "/d/y", "y", 1, false, "/d", 1⟩]).committed
    ∧ ([ScanItem.ok ⟨1, "/d/x", "x", 1, false, "/d", 1⟩,
          ScanItem.ok ⟨2, "/d/y", "y", 1, false, "/d", 1⟩, ScanItem.err]
        = [ScanItem.ok ⟨1, "/d/x", "x", 1, false, "/d", 1⟩,
            ScanItem.ok ⟨2, "/d/y", "y", 1, false, "/d", 1⟩]
          ++ [ScanItem.err])
    ∧ (⟨1, "/d/x", "x", 1, false, "/d", 1⟩ : FileRecord) ∈
        ([ScanItem.ok ⟨1, "/d/x", "x", 1, false, "/d", 1⟩,
          ScanItem.ok ⟨2, "/d/y", "y", 1, false, "/d", 1⟩].foldl
            (processItem 2) ⟨[], [], 0⟩).committed
    ∧ (⟨1, "/d/x", "x", 1, false, "/d", 1⟩ : FileRecord) ∈
        (runEntryLoop 2
          [ScanItem.ok ⟨1, "/d/x", "x", 1, false, "/d", 1⟩,
            ScanItem.ok ⟨2, "/d/y", "y", 1, false, "/d", 1⟩,
            ScanItem.err]).committed :=
  ⟨rfl, by decide,
    (c8_amended_batch_rollback 2
      [ScanItem.ok ⟨1, "/d/x", "x", 1, false, "/d", 1⟩, ScanItem.err,
        ScanItem.ok ⟨2, "/d/y", "y", 1, false, "/d", 1⟩]).2.1
      [ScanItem.ok ⟨1, "/d/x", "x", 1, false, "/d", 1⟩, ScanItem.err] []
      ⟨2, "/d/y", "y", 1, false, "/d", 1⟩ rfl (by decide),
    rfl, by decide,
    (c8_amended_batch_rollback 2
      [ScanItem.ok ⟨1, "/d/x", "x", 1, false, "/d", 1⟩,
        ScanItem.ok ⟨2, "/d/y", "y", 1, false, "/d", 1⟩,
        ScanItem.err]).2.2
      [ScanItem.ok ⟨1, "/d/x", "x", 1, false, "/d", 1⟩,
        ScanItem.ok ⟨2, "/d/y", "y", 1, false, "/d", 1⟩]
      [ScanItem.err]
      ⟨1, "/d/x", "x", 1, false, "/d", 1⟩ rfl (by decide)⟩

/-- C8 counterexample to the claim as stated: a record that processed
successfully, followed by one failing entry in the same uncommitted batch
(batch size 1000, so nothing was committed yet), is NOT persisted — the
rollback discards it — contradicting "every other entry … including
entries processed earlier in the same uncommitted batch is still
persisted". -/
theorem c8_counterexample :
    ScanItem.ok ⟨1, "/d/x", "x", 1, false, "/d", 1⟩ ∈
        [ScanItem.ok ⟨1, "/d/x", "x", 1, false, "/d", 1⟩, ScanItem.err]
    ∧ (runEntryLoop 1000
        [ScanItem.ok ⟨1, "/d/x", "x", 1, false, "/d", 1⟩,
          ScanItem.err]).committed = [] := by
  exact ⟨by decide, by decide⟩

/-! ## Folder aggregation idempotence (C9) -/

theorem calcFolderTotals_scan_id (dataPath : String) (scan : Nat)
    (recs : List FileRecord) :
    ∀ row ∈ calcFolderTotals dataPath scan recs, row.scan_id = scan := by
  unfold calcFolderTotals
  have : ∀ (l : List DirectoryDataRow) (st : AggState),
      (∀ row ∈ st.rows, row.scan_id = scan) →
      ∀ row ∈ (l.foldl (aggStep dataPath scan) st).rows,
        row.scan_id = scan := by
    intro l
    induction l with
    | nil => intro st h; simpa using h
    | cons d rest ih =>
      intro st h
      rw [List.foldl_cons]
      refine ih _ ?_
      intro row hrow
      simp only [aggStep, List.mem_append] at hrow
      rcases hrow with h' | h'
      · exact h row h'
      · simp at h'
        rw [h']

  intro row hrow
  exact this _ ⟨[], []⟩ (by simp) row hrow

/-- C9.  Running the aggregation pass a second time on the same unchanged
entry set first purges the scan's rows and then rewrites exactly the same
rows: the pass is idempotent on the `folder_info` table. -/
theorem c9_aggregation_idempotent (dataPath : String) (scan : Nat)
    (recs : List FileRecord) (table : List FolderInfoRow) :
    applyFolderAggregation dataPath scan recs
        (applyFolderAggregation dataPath scan recs table)
      = applyFolderAggregation dataPath scan recs table := by
  unfold applyFolderAggregation
  rw [List.filter_append]
  have h1 : ((table.filter fun f => f.scan_id != scan).filter
      fun f => f.scan_id != scan) = table.filter fun f => f.scan_id != scan := by
    rw [List.filter_filter]
    simp
  have h2 : ((calcFolderTotals dataPath scan recs).filter
      fun f => f.scan_id != scan) = [] := by
    rw [List.filter_eq_nil_iff]
    intro row hrow
    have := calcFolderTotals_scan_id dataPath scan recs row hrow
    simp [this]
  rw [h1, h2, List.append_nil]

/-! ## Scan duration budget (C7) -/

/-- C7 (code bug evidence).  The walk loop's timeout threshold is the
configured hours converted to seconds twice — `hours * 3600 * 3600` —
not once as specified: at the defaults (6 hours) the code waits for
77 760 000 s instead of 21 600 s before stopping traversal early. -/
theorem c7_timeout_double_conversion :
    (∀ hours : Nat, effectiveTimeoutSeconds hours = hours * 3600 * 3600)
    ∧ effectiveTimeoutSeconds 6 = 77760000
    ∧ specTimeoutSeconds 6 = 21600
    ∧ effectiveTimeoutSeconds 6 ≠ specTimeoutSeconds 6 := by
  refine ⟨fun hours => rfl, rfl, rfl, by decide⟩

/-! ## Folder aggregation correctness (C1) -/

/-- C1 (code bug evidence).  On an entry set with one directory holding a
single 10-byte file, the aggregation pass writes the row
`total_size = 0, file_count = 0, directory_count = 1` for that directory,
while the sums over the entries strictly under it are 10 bytes, 1 file and
0 directories: the pass's `directory_data` query only reads directory rows,
so every per-directory direct file count and size is computed over the
directory's own row and is always zero (and the directory count counts the
directory itself). -/
theorem c1_aggregation_totals_wrong :
    (calcFolderTotals "/data" 1 c1SampleEntries).map
        (fun f => (f.path, f.total_size, f.file_count, f.directory_count))
      = [("/data/share", 0, 0, 1)]
    ∧ specSumFileSizesUnder c1SampleEntries 1 "/data/share" = 10
    ∧ specFileCountUnder c1SampleEntries 1 "/data/share" = 1
    ∧ specDirCountUnder c1SampleEntries 1 "/data/share" = 0 := by
  refine ⟨by decide, by decide, by decide, by decide⟩

/-! ## Exclusion pruning (C2) -/

/-- C2 counterexample to the claim as stated.  With the default settings
(`skip_appdata` on), on a tree whose share `movies` contains a `cache`
subdirectory and a file named `xappdatay.bin`: `cache` is a configured
exclusion token and occurs (case-insensitively) in the paths
`/data/movies/cache` and `/data/movies/cache/y.bin`, and `appdata` occurs
in `/data/movies/xappdatay.bin`; yet the scan emits entries for all three
paths — non-`appdata` tokens prune only at the top level, and file names
are never filtered. -/
theorem c2_counterexample :
    isExcludedShare (basename "/data") true = false
    ∧ "cache" ∈ excludedShares
    ∧ strContains (strLower "/data/movies/cache") "cache" = true
    ∧ strContains (strLower "/data/movies/cache/y.bin") "cache" = true
    ∧ strContains (strLower "/data/movies/xappdatay.bin") "appdata" = true
    ∧ (scanShares true 1 "/data" c2SampleForest).map (fun r => r.path)
      = ["/data/movies", "/data/movies/cache",
         "/data/movies/xappdatay.bin", "/data/movies/cache/y.bin"] := by
  refine ⟨by decide, by decide, by decide, by decide, by decide, by decide⟩

theorem FSTree.nodeName_prune (t : FSTree) :
    (pruneAppdata t).nodeName = t.nodeName := by
  cases t <;> rfl

theorem FSTree.isDirNode_prune (t : FSTree) :
    (pruneAppdata t).isDirNode = t.isDirNode := by
  cases t <;> rfl

theorem FSForest.toList_cons (t : FSTree) (ts : FSForest) :
    (FSForest.cons t ts).toList = t :: ts.toList := rfl

theorem childFiles_cons_file (n : String) (s : Nat) (l : List FSTree) :
    childFiles (.file n s :: l) = (n, s) :: childFiles l := rfl

theorem childFiles_cons_dir (n : String) (cs : FSForest) (l : List FSTree) :
    childFiles (.dir n cs :: l) = childFiles l := rfl

theorem keptSubdirs_true_cons_file (n : String) (s : Nat)
    (l : List FSTree) :
    keptSubdirs true (.file n s :: l) = keptSubdirs true l := by
  simp [keptSubdirs, FSTree.isDirNode]

theorem keptSubdirs_true_cons_dir_kept (n : String) (cs : FSForest)
    (l : List FSTree) (h : strContains (strLower n) "appdata" = false) :
    keptSubdirs true (.dir n cs :: l) = .dir n cs :: keptSubdirs true l := by
  simp [keptSubdirs, FSTree.isDirNode, FSTree.nodeName, h]

theorem keptSubdirs_true_cons_dir_drop (n : String) (cs : FSForest)
    (l : List FSTree) (h : strContains (strLower n) "appdata" = true) :
    keptSubdirs true (.dir n cs :: l) = keptSubdirs true l := by
  simp [keptSubdirs, FSTree.isDirNode, FSTree.nodeName, h]

theorem pruneForest_cons_file (n : String) (s : Nat) (ts : FSForest) :
    pruneForest (.cons (.file n s) ts)
      = .cons (.file n s) (pruneForest ts) := by
  simp [pruneForest, pruneAppdata, FSTree.isDirNode]

theorem pruneForest_cons_dir_kept (n : String) (cs ts : FSForest)
    (h : strContains (strLower n) "appdata" = false) :
    pruneForest (.cons (.dir n cs) ts)
      = .cons (.dir n (pruneForest cs)) (pruneForest ts) := by
  simp [pruneForest, pruneAppdata, FSTree.isDirNode, FSTree.nodeName, h]

theorem pruneForest_cons_dir_drop (n : String) (cs ts : FSForest)
    (h : strContains (strLower n) "appdata" = true) :
    pruneForest (.cons (.dir n cs) ts) = pruneForest ts := by
  simp [pruneForest, FSTree.isDirNode, FSTree.nodeName, h]

theorem keepChild_file (sa : Bool) (n : String) (s : Nat) :
    keepChild sa (.file n s) = false := by
  simp [keepChild, FSTree.isDirNode]

theorem keepChild_true_dir (n : String) (cs : FSForest) :
    keepChild true (.dir n cs) = !strContains (strLower n) "appdata" := by
  simp [keepChild, FSTree.isDirNode, FSTree.nodeName]

theorem walkKeptForest_cons (sa : Bool) (scan : Nat) (root : String)
    (t : FSTree) (ts : FSForest) :
    walkKeptForest sa scan root (.cons t ts)
      = (if keepChild sa t then
          walkAt sa scan (root ++ "/" ++ t.nodeName) t
        else [])
        ++ walkKeptForest sa scan root ts := rfl

theorem childFiles_pruneForest :
    ∀ ts : FSForest,
      childFiles (pruneForest ts).toList = childFiles ts.toList
  | .nil => rfl
  | .cons t rest => by
    cases t with
    | file n s =>
      rw [pruneForest_cons_file, FSForest.toList_cons, FSForest.toList_cons,
        childFiles_cons_file, childFiles_cons_file,
        childFiles_pruneForest rest]
    | dir n cs =>
      cases hc : strContains (strLower n) "appdata" with
      | true =>
        rw [pruneForest_cons_dir_drop n cs rest hc, FSForest.toList_cons,
          childFiles_cons_dir, childFiles_pruneForest rest]
      | false =>
        rw [pruneForest_cons_dir_kept n cs rest hc, FSForest.toList_cons,
          FSForest.toList_cons, childFiles_cons_dir, childFiles_cons_dir,
          childFiles_pruneForest rest]

theorem keptSubdirs_pruneForest :
    ∀ ts : FSForest,
      keptSubdirs true (pruneForest ts).toList
        = (keptSubdirs true ts.toList).map pruneAppdata
  | .nil => rfl
  | .cons t rest => by
    cases t with
    | file n s =>
      rw [pruneForest_cons_file, FSForest.toList_cons, FSForest.toList_cons,
        keptSubdirs_true_cons_file, keptSubdirs_true_cons_file,
        keptSubdirs_pruneForest rest]
    | dir n cs =>
      cases hc : strContains (strLower n) "appdata" with
      | true =>
        rw [pruneForest_cons_dir_drop n cs rest hc, FSForest.toList_cons,
          keptSubdirs_true_cons_dir_drop n cs _ hc,
          keptSubdirs_pruneForest rest]
      | false =>
        rw [pruneForest_cons_dir_kept n cs rest hc, FSForest.toList_cons,
          FSForest.toList_cons,
          keptSubdirs_true_cons_dir_kept n (pruneForest cs) _ hc,
          keptSubdirs_true_cons_dir_kept n cs _ hc,
          keptSubdirs_pruneForest rest, List.map_cons]
        rfl

mutual
theorem walkAt_prune (scan : Nat) :
    ∀ (root : String) (t : FSTree),
      walkAt true scan root (pruneAppdata t) = walkAt true scan root t
  | _, .file _ _ => rfl
  | root, .dir n cs => by
    show walkAt true scan root (.dir n (pruneForest cs))
        = walkAt true scan root (.dir n cs)
    simp only [walkAt]
    rw [keptSubdirs_pruneForest cs, childFiles_pruneForest cs,
      walkKept_prune scan root cs, List.map_map]
    congr 1
    congr 1
    apply List.map_congr_left
    intro d _
    simp [Function.comp, FSTree.nodeName_prune d]
theorem walkKept_prune (scan : Nat) :
    ∀ (root : String) (ts : FSForest),
      walkKeptForest true scan root (pruneForest ts)
        = walkKeptForest true scan root ts
  | _, .nil => rfl
  | root, .cons t rest => by
    cases t with
    | file n s =>
      rw [pruneForest_cons_file, walkKeptForest_cons, walkKeptForest_cons,
        keepChild_file, walkKept_prune scan root rest]
    | dir n cs =>
      cases hc : strContains (strLower n) "appdata" with
      | true =>
        rw [pruneForest_cons_dir_drop n cs rest hc, walkKeptForest_cons,
          keepChild_true_dir, hc, walkKept_prune scan root rest]
        simp
      | false =>
        rw [pruneForest_cons_dir_kept n cs rest hc, walkKeptForest_cons,
          walkKeptForest_cons, keepChild_true_dir, keepChild_true_dir, hc,
          walkKept_prune scan root rest]
        simp only [Bool.not_false, if_true]
        congr 1
        show walkAt true scan
            (root ++ "/" ++ (FSTree.dir n cs).nodeName)
            (pruneAppdata (.dir n cs))
          = walkAt true scan (root ++ "/" ++ (FSTree.dir n cs).nodeName)
            (.dir n cs)
        exact walkAt_prune scan _ (.dir n cs)
end

theorem scanShares_cons (sa : Bool) (scan : Nat) (dp : String)
    (t : FSTree) (ts : FSForest) :
    scanShares sa scan dp (.cons t ts)
      = (if isExcludedShare t.nodeName sa then []
         else if !t.isDirNode then []
         else
           mkDirRec (dp ++ "/" ++ t.nodeName) t.nodeName dp scan
           :: walkAt sa scan (dp ++ "/" ++ t.nodeName) t)
        ++ scanShares sa scan dp ts := rfl

theorem scanShares_filterForest (sa : Bool) (scan : Nat) (dp : String) :
    ∀ forest : FSForest,
      scanShares sa scan dp
          (filterForest (fun t => !isExcludedShare t.nodeName sa) forest)
        = scanShares sa scan dp forest
  | .nil => rfl
  | .cons t rest => by
    cases hx : isExcludedShare t.nodeName sa with
    | true =>
      rw [show filterForest (fun t => !isExcludedShare t.nodeName sa)
            (FSForest.cons t rest)
          = filterForest (fun t => !isExcludedShare t.nodeName sa) rest from
        by simp [filterForest, hx]]
      rw [scanShares_filterForest sa scan dp rest, scanShares_cons, hx]
      simp
    | false =>
      rw [show filterForest (fun t => !isExcludedShare t.nodeName sa)
            (FSForest.cons t rest)
          = FSForest.cons t
              (filterForest (fun t => !isExcludedShare t.nodeName sa) rest)
        from by simp [filterForest, hx]]
      rw [scanShares_cons, scanShares_cons,
        scanShares_filterForest sa scan dp rest]

/-- C2 (amended).  What the walker actually guarantees: (1) at the top
level, shares matching any configured token (the `appdata` token when
`skip_appdata` is on, and every hardcoded excluded-share token) contribute
no entries at all — the scan of a forest equals the scan of the forest
with those shares removed; (2) below the top level, with `skip_appdata`
on, subtrees rooted at a directory whose lowercased name contains
`"appdata"` are pruned whole before descent — the walk of a tree equals
the walk of the tree with every such subtree removed.  (Non-`appdata`
tokens are not applied below the top level, and file entries are never
pruned, which is what the counterexample exhibits.) -/
theorem c2_amended_exclusion_pruning :
    (∀ (sa : Bool) (scan : Nat) (dp : String) (forest : FSForest),
      scanShares sa scan dp
          (filterForest (fun t => !isExcludedShare t.nodeName sa) forest)
        = scanShares sa scan dp forest)
    ∧ (∀ (scan : Nat) (root : String) (t : FSTree),
      walkAt true scan root (pruneAppdata t) = walkAt true scan root t) :=
  ⟨fun sa scan dp forest => scanShares_filterForest sa scan dp forest,
   fun scan root t => walkAt_prune scan root t⟩

/-! ## Duplicate detector (C6, C10) -/

theorem groupsForSize_eq (recs : List FileRecord) (scan s : Nat) :
    groupsForSize recs scan s
      = (groupNames (filesWithSize recs scan s)).filterMap fun n =>
          if 1 < (pairFiles recs scan s n).length then
            some (mkGroup recs scan s n)
          else none := rfl

theorem mem_groupsForSize (recs : List FileRecord) (scan s : Nat)
    (g : DupGroupRec) :
    g ∈ groupsForSize recs scan s ↔
      ∃ n, n ∈ groupNames (filesWithSize recs scan s) ∧
        1 < (pairFiles recs scan s n).length ∧
        g = mkGroup recs scan s n := by
  rw [groupsForSize_eq, List.mem_filterMap]
  constructor
  · rintro ⟨n, hn, hf⟩
    by_cases hc : 1 < (pairFiles recs scan s n).length
    · rw [if_pos hc] at hf
      exact ⟨n, hn, hc, (Option.some.injEq _ _ ▸ hf).symm⟩
    · rw [if_neg hc] at hf
      cases hf
  · rintro ⟨n, hn, hc, rfl⟩
    exact ⟨n, hn, by rw [if_pos hc]⟩

theorem mkMembers_map_file (h : String) (l : List FileRecord) :
    (mkMembers h l).map (fun m => m.file) = l := by
  cases l with
  | nil => rfl
  | cons f rest =>
    show f :: ((rest.map fun r => (⟨r, h, false⟩ : DupMember)).map
        fun m => m.file) = f :: rest
    congr 1
    induction rest with
    | nil => rfl
    | cons a t iht => simpa using iht

theorem mkMembers_primary_count (h : String) (l : List FileRecord)
    (hl : l ≠ []) :
    (mkMembers h l).countP (fun m => m.is_primary) = 1 := by
  cases l with
  | nil => exact absurd rfl hl
  | cons f rest =>
    show List.countP (fun m => m.is_primary)
        ((⟨f, h, true⟩ : DupMember) :: rest.map fun r => ⟨r, h, false⟩) = 1
    rw [List.countP_cons, List.countP_map,
      List.countP_eq_zero.mpr (by intro a _; simp)]
    simp

theorem mem_dupSizes (recs : List FileRecord) (scan s : Nat) :
    s ∈ dupSizes recs scan ↔
      1 < ((eligibleFiles recs scan).filter fun r => r.size == s).length := by
  unfold dupSizes
  rw [List.mem_filter, List.mem_dedup, List.mem_map]
  constructor
  · rintro ⟨_, hcond⟩
    simpa using hcond
  · intro h
    refine ⟨?_, by simpa using h⟩
    have h0 : 0 < ((eligibleFiles recs scan).filter
        fun r => r.size == s).length := Nat.lt_of_lt_of_le Nat.one_pos h.le
    obtain ⟨r, hr⟩ : ∃ r, r ∈ (eligibleFiles recs scan).filter
        fun r => r.size == s := by
      cases hh : (eligibleFiles recs scan).filter fun r => r.size == s with
      | nil => rw [hh] at h0; simp at h0
      | cons a t => exact ⟨a, hh ▸ List.mem_cons_self a t⟩
    rcases List.mem_filter.mp hr with ⟨hre, hsz⟩
    exact ⟨r, hre, by simpa using hsz⟩

theorem dupSizes_pos (recs : List FileRecord) (scan s : Nat)
    (h : s ∈ dupSizes recs scan) : 0 < s := by
  unfold dupSizes at h
  rw [List.mem_filter, List.mem_dedup, List.mem_map] at h
  rcases h with ⟨⟨r, hre, hsz⟩, _⟩
  rcases List.mem_filter.mp hre with ⟨_, hp⟩
  have h0 : 0 < r.size := by
    simp only [Bool.and_eq_true, decide_eq_true_eq] at hp
    exact hp.2
  omega

theorem dupSizes_nodup (recs : List FileRecord) (scan : Nat) :
    (dupSizes recs scan).Nodup :=
  (List.nodup_dedup _).filter _

theorem groupNames_nodup (files : List FileRecord) :
    (groupNames files).Nodup :=
  List.nodup_dedup _

theorem countP_groups_aux (recs : List FileRecord) (scan s s' : Nat)
    (n : String) :
    ∀ names : List String, names.Nodup →
      ((names.filterMap fun m =>
          if 1 < (pairFiles recs scan s m).length then
            some (mkGroup recs scan s m)
          else none).countP fun g => g.size == s' && g.name == n)
      = if s' = s ∧ n ∈ names ∧ 1 < (pairFiles recs scan s n).length
        then 1 else 0 := by
  intro names
  induction names with
  | nil => intro _; simp
  | cons m rest ih =>
    intro hnd
    have hm : m ∉ rest := (List.nodup_cons.mp hnd).1
    have hrest := ih (List.nodup_cons.mp hnd).2
    by_cases hc : 1 < (pairFiles recs scan s m).length
    · have hfm : (fun m =>
          if 1 < (pairFiles recs scan s m).length then
            some (mkGroup recs scan s m)
          else none) m = some (mkGroup recs scan s m) := by
        show (if 1 < (pairFiles recs scan s m).length then
            some (mkGroup recs scan s m)
          else none) = some (mkGroup recs scan s m)
        rw [if_pos hc]
      rw [@List.filterMap_cons_some String DupGroupRec
          (fun m => if 1 < (pairFiles recs scan s m).length then
            some (mkGroup recs scan s m) else none)
          m rest (mkGroup recs scan s m) hfm,
        List.countP_cons, hrest]
      by_cases hss : s' = s
      · subst hss
        by_cases hmn : m = n
        · subst hmn
          rw [if_neg (fun hcon => hm hcon.2.1),
            if_pos (show ((mkGroup recs scan s' m).size == s' &&
              ((mkGroup recs scan s' m).name == m)) = true by
                simp [mkGroup]),
            if_pos ⟨rfl, List.mem_cons_self m rest, hc⟩]
        · rw [if_neg (show ¬ ((mkGroup recs scan s' m).size == s' &&
              ((mkGroup recs scan s' m).name == n)) = true by
                simp [mkGroup, hmn])]
          have hne : n ∈ m :: rest ↔ n ∈ rest := by
            constructor
            · intro hh
              rcases List.mem_cons.mp hh with hh | hh
              · exact absurd hh.symm hmn
              · exact hh
            · exact List.mem_cons_of_mem m
          rw [if_congr (Iff.and Iff.rfl (Iff.and hne Iff.rfl)) rfl rfl]
          exact Nat.add_zero _
      · rw [if_neg (show ¬ ((mkGroup recs scan s m).size == s' &&
            ((mkGroup recs scan s m).name == n)) = true by
              simp only [mkGroup, Bool.and_eq_true, beq_iff_eq]
              exact fun hcon => hss hcon.1.symm),
          if_neg (fun hcon => hss hcon.1),
          if_neg (fun hcon => hss hcon.1)]
    · have hfm : (fun m =>
          if 1 < (pairFiles recs scan s m).length then
            some (mkGroup recs scan s m)
          else none) m = none := by
        show (if 1 < (pairFiles recs scan s m).length then
            some (mkGroup recs scan s m)
          else none) = none
        rw [if_neg hc]
      rw [@List.filterMap_cons_none String DupGroupRec
          (fun m => if 1 < (pairFiles recs scan s m).length then
            some (mkGroup recs scan s m) else none)
          m rest hfm, hrest]
      by_cases hmn : m = n
      · subst hmn
        rw [if_neg (by intro hcon; exact hm hcon.2.1),
          if_neg (by intro hcon; exact hc hcon.2.2)]
      · have hne : n ∈ m :: rest ↔ n ∈ rest := by
          constructor
          · intro hh
            rcases List.mem_cons.mp hh with hh | hh
            · exact absurd hh.symm hmn
            · exact hh
          · exact List.mem_cons_of_mem m
        rw [if_congr (Iff.and Iff.rfl (Iff.and hne Iff.rfl)) rfl rfl]

theorem countP_detect_aux (recs : List FileRecord) (scan s : Nat)
    (n : String) :
    ∀ sizes : List Nat, sizes.Nodup →
      ((sizes.flatMap (groupsForSize recs scan)).countP
        fun g => g.size == s && g.name == n)
      = if s ∈ sizes ∧ n ∈ groupNames (filesWithSize recs scan s)
            ∧ 1 < (pairFiles recs scan s n).length
        then 1 else 0 := by
  intro sizes
  induction sizes with
  | nil => intro _; simp
  | cons s1 rest ih =>
    intro hnd
    have hs1 : s1 ∉ rest := (List.nodup_cons.mp hnd).1
    have hrest := ih (List.nodup_cons.mp hnd).2
    rw [List.flatMap_cons, List.countP_append, hrest, groupsForSize_eq,
      countP_groups_aux recs scan s1 s n
        (groupNames (filesWithSize recs scan s1)) (groupNames_nodup _)]
    by_cases hss : s = s1
    · subst hss
      rw [if_neg (show ¬(s ∈ rest ∧
            n ∈ groupNames (filesWithSize recs scan s) ∧
            1 < (pairFiles recs scan s n).length) from
          fun hcon => hs1 hcon.1),
        Nat.add_zero,
        if_congr (Iff.and (iff_of_true rfl (List.mem_cons_self s rest))
          Iff.rfl) rfl rfl]
    · have hne : s ∈ s1 :: rest ↔ s ∈ rest := by
        constructor
        · intro hh
          rcases List.mem_cons.mp hh with hh | hh
          · exact absurd hh hss
          · exact hh
        · exact List.mem_cons_of_mem s1
      rw [if_neg (show ¬(s = s1 ∧
            n ∈ groupNames (filesWithSize recs scan s1) ∧
            1 < (pairFiles recs scan s1 n).length) from
          fun hcon => hss hcon.1),
        Nat.zero_add,
        if_congr (Iff.and hne Iff.rfl) rfl rfl]

theorem pairFiles_as_countP (recs : List FileRecord) (scan s : Nat)
    (n : String) :
    (pairFiles recs scan s n).length
      = recs.countP fun r =>
          (r.scan_id == scan && r.size == s && !r.is_directory) &&
            r.name == n := by
  unfold pairFiles filesWithSize
  rw [List.filter_filter, (List.countP_eq_length_filter _ _).symm]
  congr 1
  funext r
  exact Bool.and_comm _ _

theorem eligible_size_as_countP (recs : List FileRecord) (scan s : Nat) :
    ((eligibleFiles recs scan).filter fun r => r.size == s).length
      = recs.countP fun r =>
          (r.scan_id == scan && !r.is_directory && decide (0 < r.size)) &&
            r.size == s := by
  unfold eligibleFiles
  rw [List.filter_filter, (List.countP_eq_length_filter _ _).symm]
  congr 1
  funext r
  exact Bool.and_comm _ _

theorem claim_condition_iff (recs : List FileRecord) (scan s : Nat)
    (n : String) :
    (s ∈ dupSizes recs scan ∧
        n ∈ groupNames (filesWithSize recs scan s) ∧
        1 < (pairFiles recs scan s n).length)
      ↔ (0 < s ∧ 2 ≤ (pairFiles recs scan s n).length) := by
  constructor
  · rintro ⟨hs, _, hlen⟩
    exact ⟨dupSizes_pos recs scan s hs, hlen⟩
  · rintro ⟨hpos, hlen⟩
    have hlen' : 1 < (pairFiles recs scan s n).length := hlen
    refine ⟨?_, ?_, hlen'⟩
    · rw [mem_dupSizes, eligible_size_as_countP]
      have hmono : recs.countP (fun r =>
            (r.scan_id == scan && r.size == s && !r.is_directory) &&
              r.name == n)
          ≤ recs.countP (fun r =>
            (r.scan_id == scan && !r.is_directory && decide (0 < r.size)) &&
              r.size == s) := by
        refine List.countP_mono_left ?_
        intro r _ hr
        simp only [Bool.and_eq_true, beq_iff_eq, Bool.not_eq_true',
          decide_eq_true_eq] at hr ⊢
        obtain ⟨⟨⟨hsc, hsz⟩, hdir⟩, _⟩ := hr
        exact ⟨⟨⟨hsc, hdir⟩, by omega⟩, hsz⟩
      rw [pairFiles_as_countP] at hlen'
      omega
    · have h0 : 0 < (pairFiles recs scan s n).length := by omega
      obtain ⟨r, hr⟩ : ∃ r, r ∈ pairFiles recs scan s n := by
        cases hh : pairFiles recs scan s n with
        | nil => rw [hh] at h0; simp at h0
        | cons a t => exact ⟨a, hh ▸ List.mem_cons_self a t⟩
      rcases List.mem_filter.mp hr with ⟨hrf, hname⟩
      unfold groupNames
      rw [List.mem_dedup, List.mem_map]
      exact ⟨r, hrf, by simpa using hname⟩

/-- C6.  For every scan: (1) exactly one DuplicateGroup exists per
`(size, name)` pair with `size > 0` shared by two or more file records of
the scan, and none for any other pair; (2) every group's `file_count` is
the number of the scan's files with its `(size, name)` pair, that count is
at least two, and exactly one member is primary; (3) a record that is a
directory, has size zero, or whose `(size, name)` pair is not shared by at
least two files, belongs to no group. -/
theorem c6_duplicate_grouping (recs : List FileRecord) (scan : Nat) :
    (∀ (s : Nat) (n : String),
      ((detectGroups recs scan).countP fun g =>
          g.size == s && g.name == n)
        = if 0 < s ∧ 2 ≤ (pairFiles recs scan s n).length then 1 else 0)
    ∧ (∀ g ∈ detectGroups recs scan,
        0 < g.size
        ∧ g.file_count = (pairFiles recs scan g.size g.name).length
        ∧ 2 ≤ g.file_count
        ∧ g.members.map (fun m => m.file)
            = pairFiles recs scan g.size g.name
        ∧ g.members.countP (fun m => m.is_primary) = 1)
    ∧ ∀ (r : FileRecord) (g : DupGroupRec), g ∈ detectGroups recs scan →
        r ∈ g.members.map (fun m => m.file) →
        r.is_directory = false ∧ 0 < r.size
          ∧ 2 ≤ (pairFiles recs scan r.size r.name).length := by
  have hmem : ∀ g ∈ detectGroups recs scan,
      ∃ s', s' ∈ dupSizes recs scan ∧
        ∃ n, n ∈ groupNames (filesWithSize recs scan s') ∧
          1 < (pairFiles recs scan s' n).length ∧
          g = mkGroup recs scan s' n := by
    intro g hg
    rcases List.mem_flatMap.mp hg with ⟨s', hs', hgs⟩
    rcases (mem_groupsForSize recs scan s' g).mp hgs with ⟨n, hn, hc, hgg⟩
    exact ⟨s', hs', n, hn, hc, hgg⟩
  refine ⟨?_, ?_, ?_⟩
  · intro s n
    unfold detectGroups
    rw [countP_detect_aux recs scan s n (dupSizes recs scan)
        (dupSizes_nodup recs scan),
      if_congr (claim_condition_iff recs scan s n) rfl rfl]
  · intro g hg
    rcases hmem g hg with ⟨s', hs', n, _, hc, rfl⟩
    refine ⟨dupSizes_pos recs scan s' hs', rfl, hc, ?_, ?_⟩
    · exact mkMembers_map_file _ _
    · exact mkMembers_primary_count _ _
        (List.ne_nil_of_length_pos (by omega))
  · intro r g hg hr
    rcases hmem g hg with ⟨s', hs', n, _, hc, rfl⟩
    rw [show (mkGroup recs scan s' n).members
          = mkMembers (mkHash s' n) (pairFiles recs scan s' n) from rfl,
      mkMembers_map_file] at hr
    rcases List.mem_filter.mp hr with ⟨hrf, hname⟩
    rcases List.mem_filter.mp hrf with ⟨_, hp⟩
    simp only [Bool.and_eq_true, beq_iff_eq, Bool.not_eq_true'] at hp hname
    obtain ⟨⟨_, hsz⟩, hdir⟩ := hp
    have hpos : 0 < s' := dupSizes_pos recs scan s' hs'
    refine ⟨hdir, by omega, ?_⟩
    rw [hsz, hname]
    exact hc

/-- C6 witness: on the sample entry set, the `(700000000, "movie.mkv")`
pair yields exactly one group, and that group has `file_count` matching
the pair's bucket with exactly one primary member. -/
theorem c6_duplicate_grouping_witness :
    ((detectGroups c6SampleEntries 1).countP fun g =>
        g.size == 700000000 && g.name == "movie.mkv") = 1
    ∧ (0 < (mkGroup c6SampleEntries 1 700000000 "movie.mkv").size
      ∧ (mkGroup c6SampleEntries 1 700000000 "movie.mkv").file_count
          = (pairFiles c6SampleEntries 1
              (mkGroup c6SampleEntries 1 700000000 "movie.mkv").size
              (mkGroup c6SampleEntries 1 700000000 "movie.mkv").name).length
      ∧ 2 ≤ (mkGroup c6SampleEntries 1 700000000 "movie.mkv").file_count
      ∧ (mkGroup c6SampleEntries 1 700000000 "movie.mkv").members.map
            (fun m => m.file)
          = pairFiles c6SampleEntries 1
              (mkGroup c6SampleEntries 1 700000000 "movie.mkv").size
              (mkGroup c6SampleEntries 1 700000000 "movie.mkv").name
      ∧ (mkGroup c6SampleEntries 1 700000000 "movie.mkv").members.countP
            (fun m => m.is_primary) = 1) := by
  refine ⟨?_, ?_⟩
  · rw [(c6_duplicate_grouping c6SampleEntries 1).1 700000000 "movie.mkv"]
    decide
  · exact (c6_duplicate_grouping c6SampleEntries 1).2.1
      (mkGroup c6SampleEntries 1 700000000 "movie.mkv") (by decide)

/-- C10.  `detect_duplicates (scan)` clears the duplicate tables without
any scan filter: the resulting groups are a function of the `files` table
alone (whatever duplicate rows — from any scan — were stored before is
irrelevant and gone), and every member of every remaining group references
a file record of the given scan. -/
theorem c10_detect_duplicates_global_purge (scan : Nat) (st : DupStore) :
    (detectDuplicates scan st).groups = detectGroups st.files scan
    ∧ (∀ st2 : DupStore, st2.files = st.files →
        (detectDuplicates scan st2).groups
          = (detectDuplicates scan st).groups)
    ∧ ∀ g ∈ (detectDuplicates scan st).groups, ∀ m ∈ g.members,
        m.file ∈ st.files ∧ m.file.scan_id = scan := by
  refine ⟨rfl, ?_, ?_⟩
  · intro st2 h2
    simp [detectDuplicates, h2]
  · intro g hg m hm
    rcases List.mem_flatMap.mp hg with ⟨s', _, hgs⟩
    rcases (mem_groupsForSize st.files scan s' g).mp hgs with ⟨n, _, _, rfl⟩
    have hfile : m.file ∈ pairFiles st.files scan s' n := by
      have hmap := List.mem_map_of_mem (fun m => m.file) hm
      rw [show (mkGroup st.files scan s' n).members
            = mkMembers (mkHash s' n) (pairFiles st.files scan s' n)
          from rfl, mkMembers_map_file] at hmap
      exact hmap
    rcases List.mem_filter.mp hfile with ⟨hrf, _⟩
    rcases List.mem_filter.mp hrf with ⟨hrr, hp⟩
    simp only [Bool.and_eq_true, beq_iff_eq, Bool.not_eq_true'] at hp
    exact ⟨hrr, hp.1.1⟩

/-- C10 witness: prior duplicate rows of another scan do not affect the
result, and a concrete member of the produced group references a record of
the given scan. -/
theorem c10_detect_duplicates_global_purge_witness :
    ((detectDuplicates 1
        ⟨c6SampleEntries, [mkGroup [] 0 0 "stale"]⟩).groups
      = (detectDuplicates 1 ⟨c6SampleEntries, []⟩).groups)
    ∧ ((⟨1, "/d/a/movie.mkv", "movie.mkv", 700000000, false, "/d/a", 1⟩ :
          FileRecord) ∈ c6SampleEntries
      ∧ (⟨1, "/d/a/movie.mkv", "movie.mkv", 700000000, false, "/d/a", 1⟩ :
          FileRecord).scan_id = 1) := by
  refine ⟨?_, ?_⟩
  · exact (c10_detect_duplicates_global_purge 1
      ⟨c6SampleEntries, []⟩).2.1
      ⟨c6SampleEntries, [mkGroup [] 0 0 "stale"]⟩ rfl
  · exact (c10_detect_duplicates_global_purge 1
      ⟨c6SampleEntries, []⟩).2.2
      (mkGroup c6SampleEntries 1 700000000 "movie.mkv") (by decide)
      ⟨⟨1, "/d/a/movie.mkv", "movie.mkv", 700000000, false, "/d/a", 1⟩,
        mkHash 700000000 "movie.mkv", true⟩ (by decide)

end StorageManager
